import Mathlib

/-!
Verification of the camera-path planning arithmetic in
`src/with-animation.py` of the Geographic-facts-videos repository.

The planner's arithmetic (easing, bounds resolution with padding and 9:16
aspect-ratio forcing, zoom interpolation, hold-with-shake, and the overall
frame sequencing of `create_video`) is embedded shallowly over `ℚ`:
rational arithmetic models the Python float arithmetic exactly, so exact
equalities proved here imply the floating-point-tolerance statements of
the specification.  External collaborators (geopandas geometry lookup,
matplotlib rasterization, ffmpeg encoding, the random number generator's
internal state) are modelled at their interfaces: the geometry lookup as a
`String → Option RawBounds` function (`None` models the `ValueError`
branch of `get_target_bounds`), and the random generator as a stream
`ℕ → ℚ` of unit-interval draws, with `random.uniform(a, b) = a + (b-a)·u`.
-/

namespace GeoVideo

/-- Viewport: four scalar camera bounds in the order the source uses for
its bounds lists, `[xmin, xmax, ymin, ymax]` (`bounds[0..3]`, applied as
`set_xlim([b0, b1])`, `set_ylim([b2, b3])`). -/
structure Viewport where
  xmin : ℚ
  xmax : ℚ
  ymin : ℚ
  ymax : ℚ
deriving DecidableEq, Repr

/-- Raw bounding box of a target's geometry, in the geopandas
`total_bounds` order `(minx, miny, maxx, maxy)` used at line 48 of
`with-animation.py`. -/
structure RawBounds where
  minx : ℚ
  miny : ℚ
  maxx : ℚ
  maxy : ℚ
deriving DecidableEq, Repr

/-- `WORLD_BOUNDS = [-170, 170, -55, 85]` (line 31). -/
def WORLD_BOUNDS : Viewport := ⟨-170, 170, -55, 85⟩

/-- `ZOOM_FRAMES = 25` (line 29). -/
def ZOOM_FRAMES : ℕ := 25

/-- `HOLD_FRAMES = 45` (line 30). -/
def HOLD_FRAMES : ℕ := 45

/-- `DATA_COUNTRIES` (line 35). -/
def DATA_COUNTRIES : List String :=
  ["United States of America", "Russia", "Brazil", "Australia", "India"]

/-- `ease_in_out(t) = t * t * (3.0 - 2.0 * t)` (lines 37-39). -/
def ease_in_out (t : ℚ) : ℚ := t * t * (3 - 2 * t)

/-- `target_ratio = 9 / 16` (line 61 of `get_target_bounds`). -/
def target_aspect : ℚ := 9 / 16

/-- The centre/padding step of `get_target_bounds` (lines 52-58): centre
`(cx, cy)` of the raw box, width `w = (maxx - minx) + pad` and height
`h = (maxy - miny) + pad`, recentred — the region before aspect-ratio
forcing. -/
def padded_bounds (r : RawBounds) (pad : ℚ) : Viewport :=
  let cx := (r.minx + r.maxx) / 2
  let cy := (r.miny + r.maxy) / 2
  let w := (r.maxx - r.minx) + pad
  let h := (r.maxy - r.miny) + pad
  ⟨cx - w / 2, cx + w / 2, cy - h / 2, cy + h / 2⟩

/-- Lines 52-67 of `get_target_bounds`: padding followed by forcing the
9:16 aspect ratio (`if w / h > target_ratio: h = w / target_ratio else:
w = h * target_ratio`) and returning `[cx - w/2, cx + w/2, cy - h/2,
cy + h/2]`. -/
def fitted_bounds (r : RawBounds) (pad : ℚ) : Viewport :=
  let cx := (r.minx + r.maxx) / 2
  let cy := (r.miny + r.maxy) / 2
  let w := (r.maxx - r.minx) + pad
  let h := (r.maxy - r.miny) + pad
  if w / h > target_aspect then
    ⟨cx - w / 2, cx + w / 2, cy - (w / target_aspect) / 2,
      cy + (w / target_aspect) / 2⟩
  else
    ⟨cx - (h * target_aspect) / 2, cx + (h * target_aspect) / 2,
      cy - h / 2, cy + h / 2⟩

/-- `get_target_bounds(gdf, country_name, pad=15)` (lines 41-67).  The
geometry lookup `gdf[gdf.name == country_name].total_bounds` together
with its `except ValueError` guard is modelled as an `Option`-valued
lookup: `none` is the failed-lookup branch returning `WORLD_BOUNDS`. -/
def get_target_bounds (lookup : String → Option RawBounds)
    (country_name : String) (pad : ℚ) : Viewport :=
  if country_name = "World" then WORLD_BOUNDS
  else
    match lookup country_name with
    | none => WORLD_BOUNDS
    | some r => fitted_bounds r pad

/-- Python's `random.uniform(a, b) = a + (b - a) * random()`, where
`u ∈ [0, 1]` is the raw unit draw. -/
def uniform (u a b : ℚ) : ℚ := a + (b - a) * u

/-- Translation of a viewport by a horizontal and a vertical offset, as
applied at lines 133-134 (`set_xlim([b0 + sx, b1 + sx])`,
`set_ylim([b2 + sy, b3 + sy])`). -/
def shake (b : Viewport) (sx sy : ℚ) : Viewport :=
  ⟨b.xmin + sx, b.xmax + sx, b.ymin + sy, b.ymax + sy⟩

/-- The viewport actually used by `render_frame(bounds, ...,
shake_intensity)` (lines 122-134): the nominal bounds translated by
`sx = random.uniform(-shake_intensity, shake_intensity)` and an
independent `sy`.  Frame number `k` consumes unit draws `2k` and `2k+1`
of the stream (each call draws exactly two samples, in x then y order).
Rasterization and file output are external and not modelled. -/
def render_frame (rng : ℕ → ℚ) (k : ℕ) (bounds : Viewport)
    (shake_intensity : ℚ) : Viewport :=
  shake bounds
    (uniform (rng (2 * k)) (-shake_intensity) shake_intensity)
    (uniform (rng (2 * k + 1)) (-shake_intensity) shake_intensity)

/-- One zoom-interpolation frame (lines 169-174): frame `i` of `N` uses
`t = ease_in_out(i / N)` and interpolates each of the four bound scalars
`current[j] + (target[j] - current[j]) * t`. -/
def interp_bounds (A B : Viewport) (N i : ℕ) : Viewport :=
  let t := ease_in_out ((i : ℚ) / (N : ℚ))
  ⟨A.xmin + (B.xmin - A.xmin) * t,
   A.xmax + (B.xmax - A.xmax) * t,
   A.ymin + (B.ymin - A.ymin) * t,
   A.ymax + (B.ymax - A.ymax) * t⟩

/-- The zoom phase: `N` rendered frames, frame `i` showing
`interp_bounds A B N i`, starting at global frame counter `fc`; each is
rendered with the default `shake_intensity = 0.0`. -/
def zoomPhaseFrames (rng : ℕ → ℚ) (fc : ℕ) (A B : Viewport) (N : ℕ) :
    List Viewport :=
  (List.range N).map fun i => render_frame rng (fc + i) (interp_bounds A B N i) 0

/-- A hold phase: `M` rendered frames of the fixed nominal viewport `C`
jittered with intensity `s`, starting at global frame counter `fc`. -/
def holdFrames (rng : ℕ → ℚ) (fc : ℕ) (C : Viewport) (s : ℚ) (M : ℕ) :
    List Viewport :=
  (List.range M).map fun i => render_frame rng (fc + i) C s

/-- The per-country loop plus finale of `create_video` (lines 165-198),
threading the carried-over `current_bounds` and the global frame counter
exactly as the source's imperative loop does: for each country, a zoom
phase from the current viewport to that country's resolved bounds then a
hold-with-shake phase there; after the list, a zoom back to
`WORLD_BOUNDS` and a closing hold.  `Z`, `H`, `cH` are the zoom, hold and
closing-hold frame counts and `s` the hold-phase shake intensity. -/
def plan_loop (rng : ℕ → ℚ) (lookup : String → Option RawBounds)
    (Z H cH : ℕ) (s : ℚ) : List String → Viewport → ℕ → List Viewport
  | [], cur, fc =>
      zoomPhaseFrames rng fc cur WORLD_BOUNDS Z
        ++ holdFrames rng (fc + Z) WORLD_BOUNDS 0 cH
  | c :: rest, cur, fc =>
      let tgt := get_target_bounds lookup c 15
      zoomPhaseFrames rng fc cur tgt Z
        ++ holdFrames rng (fc + Z) tgt s H
        ++ plan_loop rng lookup Z H cH s rest tgt (fc + Z + H)

/-- The full animation sequence of `create_video` (lines 158-198): an
initial hold of `iH` unjittered frames on `WORLD_BOUNDS`, then the
per-country loop and finale. -/
def animation_sequence (rng : ℕ → ℚ) (lookup : String → Option RawBounds)
    (iH Z H cH : ℕ) (s : ℚ) (targets : List String) : List Viewport :=
  holdFrames rng 0 WORLD_BOUNDS 0 iH
    ++ plan_loop rng lookup Z H cH s targets WORLD_BOUNDS iH

/-- The concrete plan of the source: initial hold 30 frames, `ZOOM_FRAMES`
and `HOLD_FRAMES` per country, closing hold 60 frames, shake intensity
`0.8` (lines 161, 169, 181-183, 187, 197). -/
def create_video_plan (rng : ℕ → ℚ) (lookup : String → Option RawBounds) :
    List Viewport :=
  animation_sequence rng lookup 30 ZOOM_FRAMES HOLD_FRAMES 60 (4 / 5)
    DATA_COUNTRIES

/-! ### Helper lemmas -/

/-- With `shake_intensity = 0`, `random.uniform(-0, 0)` is `0` and the
rendered viewport is exactly the nominal one. -/
lemma render_frame_zero (rng : ℕ → ℚ) (k : ℕ) (b : Viewport) :
    render_frame rng k b 0 = b := by
  cases b
  simp [render_frame, shake, uniform]

/-- Frame 0 of a zoom interpolation reproduces the start viewport:
`ease_in_out 0 = 0`. -/
lemma interp_bounds_zero (A B : Viewport) (N : ℕ) :
    interp_bounds A B N 0 = A := by
  cases A
  simp [interp_bounds, ease_in_out]

/-- Smoothstep stays nonnegative on `[0, 1]`. -/
lemma ease_nonneg {u : ℚ} (h0 : 0 ≤ u) (h1 : u ≤ 1) :
    0 ≤ ease_in_out u := by
  unfold ease_in_out
  nlinarith [sq_nonneg u]

/-- Smoothstep stays at most one on `[0, 1]`:
`1 - u²(3 - 2u) = (1 - u)²(1 + 2u)`. -/
lemma ease_le_one {u : ℚ} (h0 : 0 ≤ u) (h1 : u ≤ 1) :
    ease_in_out u ≤ 1 := by
  unfold ease_in_out
  nlinarith [mul_nonneg (sq_nonneg (1 - u)) (by linarith : (0:ℚ) ≤ 1 + 2 * u)]

/-- Smoothstep is monotone on `[0, 1]`. -/
lemma ease_mono {a b : ℚ} (ha : 0 ≤ a) (hab : a ≤ b) (hb : b ≤ 1) :
    ease_in_out a ≤ ease_in_out b := by
  unfold ease_in_out
  have hb0 : 0 ≤ b := le_trans ha hab
  have ha1 : a ≤ 1 := le_trans hab hb
  have h1 : 0 ≤ (b - a) * (a * (1 - a)) :=
    mul_nonneg (by linarith) (mul_nonneg ha (by linarith))
  have h2 : 0 ≤ (b - a) * (b * (1 - b)) :=
    mul_nonneg (by linarith) (mul_nonneg hb0 (by linarith))
  have h3 : 0 ≤ (b - a) * (a * (1 - b)) :=
    mul_nonneg (by linarith) (mul_nonneg ha (by linarith))
  have h4 : 0 ≤ (b - a) * (b * (1 - a)) :=
    mul_nonneg (by linarith) (mul_nonneg hb0 (by linarith))
  nlinarith [h1, h2, h3, h4]

/-- Length of the per-country loop: each of the `K` countries contributes
`Z + H` frames, the finale `Z + cH`. -/
lemma plan_loop_length (rng : ℕ → ℚ) (lookup : String → Option RawBounds)
    (Z H cH : ℕ) (s : ℚ) :
    ∀ (ts : List String) (cur : Viewport) (fc : ℕ),
      (plan_loop rng lookup Z H cH s ts cur fc).length
        = ts.length * (Z + H) + Z + cH := by
  intro ts
  induction ts with
  | nil =>
      intro cur fc
      simp [plan_loop, zoomPhaseFrames, holdFrames]
  | cons c rest ih =>
      intro cur fc
      simp only [plan_loop, List.length_append, List.length_map,
        List.length_range, zoomPhaseFrames, holdFrames, ih, List.length_cons]
      ring

/-! ### Claim theorems -/

/-- C6: the easing function is smoothstep `t² (3 - 2t)`, with
`ease 0 = 0`, `ease 1 = 1`, and monotone non-decreasing on `[0, 1]`
(which covers any 100 evenly spaced sample points). -/
theorem ease_properties :
    (∀ t : ℚ, ease_in_out t = t * t * (3 - 2 * t))
    ∧ ease_in_out 0 = 0
    ∧ ease_in_out 1 = 1
    ∧ ∀ a b : ℚ, 0 ≤ a → a ≤ b → b ≤ 1 →
        ease_in_out a ≤ ease_in_out b := by
  refine ⟨fun t => rfl, by norm_num [ease_in_out], by norm_num [ease_in_out],
    fun a b ha hab hb => ease_mono ha hab hb⟩

/-- Witness for C6: the monotonicity clause applied at `a = 1/4`,
`b = 1/2`. -/
theorem ease_properties_witness :
    ease_in_out (1 / 4 : ℚ) ≤ ease_in_out (1 / 2 : ℚ) :=
  ease_properties.2.2.2 (1 / 4) (1 / 2) (by norm_num) (by norm_num)
    (by norm_num)

/-- C7: a hold phase with shake intensity `0` is `M` exact copies of the
nominal viewport, for any draw stream — the jitter translation is the
identity when `s = 0`. -/
theorem hold_zero_shake_replicate :
    (∀ (rng : ℕ → ℚ) (fc : ℕ) (C : Viewport) (M : ℕ),
        holdFrames rng fc C 0 M = List.replicate M C)
    ∧ ∀ (rng : ℕ → ℚ) (k : ℕ) (C : Viewport),
        render_frame rng k C 0 = C := by
  constructor
  · intro rng fc C M
    unfold holdFrames
    rw [List.eq_replicate_iff]
    constructor
    · simp
    · intro b hb
      obtain ⟨i, _, rfl⟩ := List.mem_map.mp hb
      exact render_frame_zero rng (fc + i) C
  · intro rng k C
    exact render_frame_zero rng k C

/-- C2: a target name whose lookup fails resolves to `WORLD_BOUNDS`
(a non-degenerate region), not an error. -/
theorem fallback_world_bounds
    (lookup : String → Option RawBounds) (name : String) (pad : ℚ)
    (hfail : lookup name = none) :
    get_target_bounds lookup name pad = WORLD_BOUNDS
    ∧ WORLD_BOUNDS.xmin < WORLD_BOUNDS.xmax
    ∧ WORLD_BOUNDS.ymin < WORLD_BOUNDS.ymax := by
  refine ⟨?_, by norm_num [WORLD_BOUNDS], by norm_num [WORLD_BOUNDS]⟩
  unfold get_target_bounds
  split_ifs with hw
  · rfl
  · rw [hfail]

/-- Witness for C2: an everywhere-failing lookup on the name
`"Atlantis"`. -/
theorem fallback_world_bounds_witness :
    get_target_bounds (fun _ => none) "Atlantis" 15 = WORLD_BOUNDS
    ∧ WORLD_BOUNDS.xmin < WORLD_BOUNDS.xmax
    ∧ WORLD_BOUNDS.ymin < WORLD_BOUNDS.ymax :=
  fallback_world_bounds (fun _ => none) "Atlantis" 15 rfl

/-- C10: the special name `"World"` returns `WORLD_BOUNDS` unchanged,
ignoring the lookup, the padding and the aspect-ratio normalization; the
returned region's width/height ratio is `17/7`, not the target `9/16`. -/
theorem world_special_case :
    (∀ (lookup : String → Option RawBounds) (pad : ℚ),
        get_target_bounds lookup "World" pad = WORLD_BOUNDS)
    ∧ (WORLD_BOUNDS.xmax - WORLD_BOUNDS.xmin)
        / (WORLD_BOUNDS.ymax - WORLD_BOUNDS.ymin) = 17 / 7
    ∧ (WORLD_BOUNDS.xmax - WORLD_BOUNDS.xmin)
        / (WORLD_BOUNDS.ymax - WORLD_BOUNDS.ymin) ≠ target_aspect := by
  refine ⟨fun lookup pad => ?_, by norm_num [WORLD_BOUNDS],
    by norm_num [WORLD_BOUNDS, target_aspect]⟩
  unfold get_target_bounds
  rw [if_pos rfl]

/-- C5: zoom frame `i` of `N` interpolates each bound scalar as
`A[k] + (B[k] - A[k]) · ease(i/N)`; frame 0 is exactly `A`; and for
`N = 25`, frame 24 sits at eased progress `15552/15625`, hence differs
from `B` by the nonzero residual `(B[k] - A[k]) · 73/15625` whenever
`A[k] ≠ B[k]`. -/
theorem interp_frames_formula :
    (∀ (A B : Viewport) (N i : ℕ),
        interp_bounds A B N i
          = ⟨A.xmin + (B.xmin - A.xmin) * ease_in_out ((i : ℚ) / (N : ℚ)),
             A.xmax + (B.xmax - A.xmax) * ease_in_out ((i : ℚ) / (N : ℚ)),
             A.ymin + (B.ymin - A.ymin) * ease_in_out ((i : ℚ) / (N : ℚ)),
             A.ymax + (B.ymax - A.ymax) * ease_in_out ((i : ℚ) / (N : ℚ))⟩)
    ∧ (∀ (A B : Viewport) (N : ℕ), interp_bounds A B N 0 = A)
    ∧ ∀ (A B : Viewport), A.xmin ≠ B.xmin →
        (interp_bounds A B 25 24).xmin
            = B.xmin - (B.xmin - A.xmin) * (73 / 15625)
        ∧ (interp_bounds A B 25 24).xmin ≠ B.xmin := by
  refine ⟨fun A B N i => rfl, fun A B N => interp_bounds_zero A B N,
    fun A B hne => ⟨?_, ?_⟩⟩
  · show A.xmin + (B.xmin - A.xmin) * ease_in_out ((24 : ℚ) / 25)
      = B.xmin - (B.xmin - A.xmin) * (73 / 15625)
    unfold ease_in_out
    ring
  · show A.xmin + (B.xmin - A.xmin) * ease_in_out ((24 : ℚ) / 25) ≠ B.xmin
    unfold ease_in_out
    intro hcontra
    apply hne
    have : (B.xmin - A.xmin) * (73 / 15625) = 0 := by linarith [hcontra]
    have hz : B.xmin - A.xmin = 0 := by
      by_contra hnz
      exact hnz (by
        have := mul_eq_zero.mp this
        rcases this with h | h
        · exact h
        · norm_num at h)
    linarith

/-- Witness for C5: the residual clause at `A.xmin = 0`, `B.xmin = 1`. -/
theorem interp_frames_formula_witness :
    (interp_bounds ⟨0, 0, 0, 0⟩ ⟨1, 1, 1, 1⟩ 25 24).xmin
        = 1 - (1 - 0) * (73 / 15625)
    ∧ (interp_bounds ⟨0, 0, 0, 0⟩ ⟨1, 1, 1, 1⟩ 25 24).xmin ≠ 1 :=
  interp_frames_formula.2.2 ⟨0, 0, 0, 0⟩ ⟨1, 1, 1, 1⟩ (by norm_num)

/-- Counterexample for C3: `pad` is added once to the total width and
height (`w = (maxx - minx) + pad`, line 57), so with raw box
`[0, 10] × [0, 10]` and `pad = 15` the padded minimum x is `-15/2`, not
the `-15` that a full-`p` margin on each side would give. -/
theorem pad_margin_counterexample :
    (⟨0, 0, 10, 10⟩ : RawBounds).minx
      - (padded_bounds ⟨0, 0, 10, 10⟩ 15).xmin ≠ 15 := by
  norm_num [padded_bounds]

/-- C3 amended: the padded region contains the raw region with a margin
of exactly `p/2` on each of the four sides (the total padding `p` is
split across the two sides of each axis), strictly when `p > 0`. -/
theorem pad_margin_half (r : RawBounds) (p : ℚ) :
    (r.minx - (padded_bounds r p).xmin = p / 2
      ∧ (padded_bounds r p).xmax - r.maxx = p / 2
      ∧ r.miny - (padded_bounds r p).ymin = p / 2
      ∧ (padded_bounds r p).ymax - r.maxy = p / 2)
    ∧ (0 < p →
        (padded_bounds r p).xmin < r.minx ∧ r.maxx < (padded_bounds r p).xmax
        ∧ (padded_bounds r p).ymin < r.miny
        ∧ r.maxy < (padded_bounds r p).ymax) := by
  unfold padded_bounds
  dsimp only
  exact ⟨⟨by ring, by ring, by ring, by ring⟩,
    fun hp => ⟨by linarith, by linarith, by linarith, by linarith⟩⟩

/-- Witness for C3 amended: the strict clause at the raw box
`[0, 10] × [0, 10]` with `p = 15`. -/
theorem pad_margin_half_witness :
    (padded_bounds ⟨0, 0, 10, 10⟩ 15).xmin < (⟨0, 0, 10, 10⟩ : RawBounds).minx
    ∧ (⟨0, 0, 10, 10⟩ : RawBounds).maxx < (padded_bounds ⟨0, 0, 10, 10⟩ 15).xmax
    ∧ (padded_bounds ⟨0, 0, 10, 10⟩ 15).ymin < (⟨0, 0, 10, 10⟩ : RawBounds).miny
    ∧ (⟨0, 0, 10, 10⟩ : RawBounds).maxy < (padded_bounds ⟨0, 0, 10, 10⟩ 15).ymax :=
  (pad_margin_half ⟨0, 0, 10, 10⟩ 15).2 (by norm_num)

/-- Offsets drawn by `random.uniform(-s, s)` from a unit draw `u ∈ [0,1]`
stay within `[-s, s]` when `s ≥ 0`. -/
lemma uniform_mem {u s : ℚ} (hs : 0 ≤ s) (h0 : 0 ≤ u) (h1 : u ≤ 1) :
    -s ≤ uniform u (-s) s ∧ uniform u (-s) s ≤ s := by
  unfold uniform
  constructor
  · nlinarith [mul_nonneg hs h0]
  · nlinarith [mul_nonneg hs (sub_nonneg.2 h1)]

/-- C8: every frame of a hold phase with intensity `s ≥ 0` is the nominal
viewport translated by a horizontal and a vertical offset in `[-s, s]`
(given unit draws in `[0, 1]`); and two runs over equal draw streams
(same seed) produce the identical frame sequence. -/
theorem hold_shake_bounded_deterministic :
    (∀ (rng : ℕ → ℚ) (fc : ℕ) (C : Viewport) (s : ℚ) (M : ℕ),
        0 ≤ s → (∀ k, 0 ≤ rng k ∧ rng k ≤ 1) →
        ∀ v ∈ holdFrames rng fc C s M,
          ∃ sx sy : ℚ, -s ≤ sx ∧ sx ≤ s ∧ -s ≤ sy ∧ sy ≤ s
            ∧ v = shake C sx sy)
    ∧ ∀ (r₁ r₂ : ℕ → ℚ) (fc : ℕ) (C : Viewport) (s : ℚ) (M : ℕ),
        (∀ k, r₁ k = r₂ k) →
        holdFrames r₁ fc C s M = holdFrames r₂ fc C s M := by
  constructor
  · intro rng fc C s M hs hu v hv
    obtain ⟨i, _, rfl⟩ := List.mem_map.mp hv
    obtain ⟨hx1, hx2⟩ :=
      uniform_mem hs (hu (2 * (fc + i))).1 (hu (2 * (fc + i))).2
    obtain ⟨hy1, hy2⟩ :=
      uniform_mem hs (hu (2 * (fc + i) + 1)).1 (hu (2 * (fc + i) + 1)).2
    exact ⟨uniform (rng (2 * (fc + i))) (-s) s,
      uniform (rng (2 * (fc + i) + 1)) (-s) s,
      hx1, hx2, hy1, hy2, rfl⟩
  · intro r₁ r₂ fc C s M hr
    have : r₁ = r₂ := funext hr
    rw [this]

/-- Witness for C8: the single frame of a one-frame hold phase with
`s = 4/5` and constant unit draw `1/2` is a bounded translation of
`WORLD_BOUNDS`. -/
theorem hold_shake_bounded_witness :
    ∃ sx sy : ℚ, -(4 / 5) ≤ sx ∧ sx ≤ 4 / 5 ∧ -(4 / 5) ≤ sy ∧ sy ≤ 4 / 5
      ∧ render_frame (fun _ => (1 : ℚ) / 2) 0 WORLD_BOUNDS (4 / 5)
          = shake WORLD_BOUNDS sx sy :=
  hold_shake_bounded_deterministic.1 (fun _ => (1 : ℚ) / 2) 0 WORLD_BOUNDS
    (4 / 5) 1 (by norm_num) (fun k => ⟨by norm_num, by norm_num⟩)
    (render_frame (fun _ => (1 : ℚ) / 2) 0 WORLD_BOUNDS (4 / 5))
    (by simp [holdFrames])

/-- Convex combination of two positive widths is positive for mixing
weight `t ∈ [0, 1]`. -/
lemma convex_pos {t wa wb : ℚ} (ht0 : 0 ≤ t) (ht1 : t ≤ 1)
    (hwa : 0 < wa) (hwb : 0 < wb) : 0 < (1 - t) * wa + t * wb := by
  rcases lt_or_eq_of_le ht1 with h | h
  · have h1 : 0 < (1 - t) * wa := mul_pos (by linarith) hwa
    have h2 : 0 ≤ t * wb := mul_nonneg ht0 (le_of_lt hwb)
    linarith
  · subst h
    simpa using hwb

/-- C9: interpolated frames (for `i < N`) and jittered frames both keep
`max > min` on each axis whenever the input viewports do: interpolation
is a convex combination with eased weight in `[0, 1]`, jitter a pure
translation. -/
theorem viewport_nondegenerate :
    (∀ (A B : Viewport) (N i : ℕ), i < N →
        A.xmin < A.xmax → A.ymin < A.ymax →
        B.xmin < B.xmax → B.ymin < B.ymax →
        (interp_bounds A B N i).xmin < (interp_bounds A B N i).xmax
        ∧ (interp_bounds A B N i).ymin < (interp_bounds A B N i).ymax)
    ∧ ∀ (C : Viewport) (sx sy : ℚ),
        C.xmin < C.xmax → C.ymin < C.ymax →
        (shake C sx sy).xmin < (shake C sx sy).xmax
        ∧ (shake C sx sy).ymin < (shake C sx sy).ymax := by
  constructor
  · intro A B N i hiN hax hay hbx hby
    have hN : 0 < N := lt_of_le_of_lt (Nat.zero_le i) hiN
    have hNq : (0 : ℚ) < (N : ℚ) := by exact_mod_cast hN
    have hu0 : 0 ≤ (i : ℚ) / (N : ℚ) :=
      div_nonneg (Nat.cast_nonneg i) (le_of_lt hNq)
    have hu1 : (i : ℚ) / (N : ℚ) ≤ 1 := by
      rw [div_le_one hNq]
      exact_mod_cast le_of_lt hiN
    have ht0 := ease_nonneg hu0 hu1
    have ht1 := ease_le_one hu0 hu1
    unfold interp_bounds
    dsimp only
    constructor
    · have := convex_pos ht0 ht1 (by linarith : (0:ℚ) < A.xmax - A.xmin)
        (by linarith : (0:ℚ) < B.xmax - B.xmin)
      nlinarith [this]
    · have := convex_pos ht0 ht1 (by linarith : (0:ℚ) < A.ymax - A.ymin)
        (by linarith : (0:ℚ) < B.ymax - B.ymin)
      nlinarith [this]
  · intro C sx sy hx hy
    unfold shake
    dsimp only
    constructor <;> linarith

/-- Witness for C9: interpolation frame 24 of 25 from `WORLD_BOUNDS` to
`[0, 10] × [0, 10]`, and a jitter translation of `WORLD_BOUNDS`. -/
theorem viewport_nondegenerate_witness :
    ((interp_bounds WORLD_BOUNDS ⟨0, 10, 0, 10⟩ 25 24).xmin
        < (interp_bounds WORLD_BOUNDS ⟨0, 10, 0, 10⟩ 25 24).xmax
      ∧ (interp_bounds WORLD_BOUNDS ⟨0, 10, 0, 10⟩ 25 24).ymin
        < (interp_bounds WORLD_BOUNDS ⟨0, 10, 0, 10⟩ 25 24).ymax)
    ∧ (shake WORLD_BOUNDS 1 (-1)).xmin < (shake WORLD_BOUNDS 1 (-1)).xmax
    ∧ (shake WORLD_BOUNDS 1 (-1)).ymin < (shake WORLD_BOUNDS 1 (-1)).ymax :=
  ⟨viewport_nondegenerate.1 WORLD_BOUNDS ⟨0, 10, 0, 10⟩ 25 24 (by norm_num)
      (by norm_num [WORLD_BOUNDS]) (by norm_num [WORLD_BOUNDS])
      (by norm_num) (by norm_num),
    viewport_nondegenerate.2 WORLD_BOUNDS 1 (-1)
      (by norm_num [WORLD_BOUNDS]) (by norm_num [WORLD_BOUNDS])⟩

/-- The width after aspect forcing: unchanged when the padded box is
wider than 9:16, otherwise grown to `h · target_ratio` (line 65). -/
def fit_w (w h : ℚ) : ℚ :=
  if w / h > target_aspect then w else h * target_aspect

/-- The height after aspect forcing: grown to `w / target_ratio` when the
padded box is wider than 9:16 (line 63), otherwise unchanged. -/
def fit_h (w h : ℚ) : ℚ :=
  if w / h > target_aspect then w / target_aspect else h

/-- `fitted_bounds` re-expressed through `fit_w`/`fit_h`. -/
lemma fitted_bounds_eq (r : RawBounds) (pad : ℚ) :
    fitted_bounds r pad =
      ⟨(r.minx + r.maxx) / 2
          - fit_w (r.maxx - r.minx + pad) (r.maxy - r.miny + pad) / 2,
        (r.minx + r.maxx) / 2
          + fit_w (r.maxx - r.minx + pad) (r.maxy - r.miny + pad) / 2,
        (r.miny + r.maxy) / 2
          - fit_h (r.maxx - r.minx + pad) (r.maxy - r.miny + pad) / 2,
        (r.miny + r.maxy) / 2
          + fit_h (r.maxx - r.minx + pad) (r.maxy - r.miny + pad) / 2⟩ := by
  unfold fitted_bounds fit_w fit_h
  dsimp only
  split_ifs <;> rfl

/-- The forced box has width/height ratio exactly `9/16`. -/
lemma fit_ratio {w h : ℚ} (hw : 0 < w) (hh : 0 < h) :
    fit_w w h / fit_h w h = target_aspect := by
  unfold fit_w fit_h
  split_ifs with hc
  · rw [div_div_eq_mul_div, mul_div_cancel_left₀ _ (ne_of_gt hw)]
  · rw [mul_div_cancel_left₀ _ (ne_of_gt hh)]

/-- Aspect forcing never shrinks the width. -/
lemma fit_w_ge {w h : ℚ} (hh : 0 < h) : w ≤ fit_w w h := by
  unfold fit_w
  split_ifs with hc
  · exact le_refl w
  · push_neg at hc
    have := (div_le_iff₀ hh).mp hc
    linarith [this, mul_comm target_aspect h]

/-- Aspect forcing never shrinks the height. -/
lemma fit_h_ge {w h : ℚ} (hh : 0 < h) : h ≤ fit_h w h := by
  unfold fit_h
  split_ifs with hc
  · have hta : (0 : ℚ) < target_aspect := by norm_num [target_aspect]
    have hlt : target_aspect * h < w := (lt_div_iff₀ hh).mp hc
    rw [le_div_iff₀ hta]
    linarith [mul_comm h target_aspect]
  · exact le_refl h

/-- C4: the normalized region has width/height equal to the target 9:16
ratio exactly (hence within any tolerance), contains the
pre-normalization padded region and the raw region, and is recentred on
the raw region's centre — expansion only, never cropping. -/
theorem aspect_normalization (r : RawBounds) (pad : ℚ)
    (hpad : 0 ≤ pad)
    (hw : 0 < r.maxx - r.minx + pad)
    (hh : 0 < r.maxy - r.miny + pad) :
    ((fitted_bounds r pad).xmax - (fitted_bounds r pad).xmin)
        / ((fitted_bounds r pad).ymax - (fitted_bounds r pad).ymin)
      = target_aspect
    ∧ (fitted_bounds r pad).xmin ≤ (padded_bounds r pad).xmin
    ∧ (padded_bounds r pad).xmax ≤ (fitted_bounds r pad).xmax
    ∧ (fitted_bounds r pad).ymin ≤ (padded_bounds r pad).ymin
    ∧ (padded_bounds r pad).ymax ≤ (fitted_bounds r pad).ymax
    ∧ (fitted_bounds r pad).xmin ≤ r.minx
    ∧ r.maxx ≤ (fitted_bounds r pad).xmax
    ∧ (fitted_bounds r pad).ymin ≤ r.miny
    ∧ r.maxy ≤ (fitted_bounds r pad).ymax
    ∧ ((fitted_bounds r pad).xmin + (fitted_bounds r pad).xmax) / 2
      = (r.minx + r.maxx) / 2
    ∧ ((fitted_bounds r pad).ymin + (fitted_bounds r pad).ymax) / 2
      = (r.miny + r.maxy) / 2 := by
  have hwge := fit_w_ge (w := r.maxx - r.minx + pad) hh
  have hhge := fit_h_ge (w := r.maxx - r.minx + pad) hh
  rw [fitted_bounds_eq]
  unfold padded_bounds
  dsimp only
  refine ⟨?_, by linarith, by linarith, by linarith, by linarith,
    by linarith, by linarith, by linarith, by linarith, by ring, by ring⟩
  have e1 : ∀ c x : ℚ, c + x / 2 - (c - x / 2) = x := fun c x => by ring
  rw [e1, e1]
  exact fit_ratio hw hh

/-- Witness for C4: the raw box `[0, 10] × [0, 10]` with the default
padding 15 — the normalized region has exact ratio 9:16 and contains
both the padded and the raw box, recentred at `(5, 5)`. -/
theorem aspect_normalization_witness :
    ((fitted_bounds ⟨0, 0, 10, 10⟩ 15).xmax
          - (fitted_bounds ⟨0, 0, 10, 10⟩ 15).xmin)
        / ((fitted_bounds ⟨0, 0, 10, 10⟩ 15).ymax
          - (fitted_bounds ⟨0, 0, 10, 10⟩ 15).ymin)
      = target_aspect
    ∧ (fitted_bounds ⟨0, 0, 10, 10⟩ 15).xmin
        ≤ (padded_bounds ⟨0, 0, 10, 10⟩ 15).xmin
    ∧ (padded_bounds ⟨0, 0, 10, 10⟩ 15).xmax
        ≤ (fitted_bounds ⟨0, 0, 10, 10⟩ 15).xmax
    ∧ (fitted_bounds ⟨0, 0, 10, 10⟩ 15).ymin
        ≤ (padded_bounds ⟨0, 0, 10, 10⟩ 15).ymin
    ∧ (padded_bounds ⟨0, 0, 10, 10⟩ 15).ymax
        ≤ (fitted_bounds ⟨0, 0, 10, 10⟩ 15).ymax
    ∧ (fitted_bounds ⟨0, 0, 10, 10⟩ 15).xmin
        ≤ (⟨0, 0, 10, 10⟩ : RawBounds).minx
    ∧ (⟨0, 0, 10, 10⟩ : RawBounds).maxx
        ≤ (fitted_bounds ⟨0, 0, 10, 10⟩ 15).xmax
    ∧ (fitted_bounds ⟨0, 0, 10, 10⟩ 15).ymin
        ≤ (⟨0, 0, 10, 10⟩ : RawBounds).miny
    ∧ (⟨0, 0, 10, 10⟩ : RawBounds).maxy
        ≤ (fitted_bounds ⟨0, 0, 10, 10⟩ 15).ymax
    ∧ ((fitted_bounds ⟨0, 0, 10, 10⟩ 15).xmin
          + (fitted_bounds ⟨0, 0, 10, 10⟩ 15).xmax) / 2
      = ((⟨0, 0, 10, 10⟩ : RawBounds).minx
          + (⟨0, 0, 10, 10⟩ : RawBounds).maxx) / 2
    ∧ ((fitted_bounds ⟨0, 0, 10, 10⟩ 15).ymin
          + (fitted_bounds ⟨0, 0, 10, 10⟩ 15).ymax) / 2
      = ((⟨0, 0, 10, 10⟩ : RawBounds).miny
          + (⟨0, 0, 10, 10⟩ : RawBounds).maxy) / 2 :=
  aspect_normalization ⟨0, 0, 10, 10⟩ 15 (by norm_num) (by norm_num)
    (by norm_num)

/-- C1: the planner's sequencing contract.  The total frame count is
`iH + K·(Z + H) + Z + cH` for `K` targets; every zoom phase opens
exactly on the carried-over current viewport (no snapping); and the
sequence decomposes as the initial world hold, then per target in input
order a zoom phase to the resolved region followed by a hold-with-shake
phase there, then the final zoom back to `WORLD_BOUNDS` and the closing
hold. -/
theorem animation_sequence_contract :
    (∀ (rng : ℕ → ℚ) (lookup : String → Option RawBounds)
        (iH Z H cH : ℕ) (s : ℚ) (targets : List String),
        (animation_sequence rng lookup iH Z H cH s targets).length
          = iH + targets.length * (Z + H) + Z + cH)
    ∧ (∀ (rng : ℕ → ℚ) (fc : ℕ) (A B : Viewport) (N : ℕ), 0 < N →
        (zoomPhaseFrames rng fc A B N).head? = some A)
    ∧ (∀ (rng : ℕ → ℚ) (lookup : String → Option RawBounds)
        (iH Z H cH : ℕ) (s : ℚ) (c : String) (rest : List String),
        animation_sequence rng lookup iH Z H cH s (c :: rest)
          = holdFrames rng 0 WORLD_BOUNDS 0 iH
            ++ (zoomPhaseFrames rng iH WORLD_BOUNDS
                  (get_target_bounds lookup c 15) Z
              ++ holdFrames rng (iH + Z) (get_target_bounds lookup c 15) s H
              ++ plan_loop rng lookup Z H cH s rest
                  (get_target_bounds lookup c 15) (iH + Z + H)))
    ∧ ∀ (rng : ℕ → ℚ) (lookup : String → Option RawBounds)
        (iH Z H cH : ℕ) (s : ℚ),
        animation_sequence rng lookup iH Z H cH s []
          = holdFrames rng 0 WORLD_BOUNDS 0 iH
            ++ (zoomPhaseFrames rng iH WORLD_BOUNDS WORLD_BOUNDS Z
              ++ holdFrames rng (iH + Z) WORLD_BOUNDS 0 cH) := by
  refine ⟨?_, ?_, ?_, ?_⟩
  · intro rng lookup iH Z H cH s targets
    simp only [animation_sequence, List.length_append, holdFrames,
      List.length_map, List.length_range,
      plan_loop_length rng lookup Z H cH s targets WORLD_BOUNDS iH]
    ring
  · intro rng fc A B N hN
    obtain ⟨m, rfl⟩ := Nat.exists_eq_succ_of_ne_zero (Nat.pos_iff_ne_zero.mp hN)
    unfold zoomPhaseFrames
    rw [List.range_succ_eq_map]
    simp [render_frame_zero, interp_bounds_zero]
  · intro rng lookup iH Z H cH s c rest
    simp [animation_sequence, plan_loop]
  · intro rng lookup iH Z H cH s
    simp [animation_sequence, plan_loop]

/-- Witness for C1: the spec's end-to-end scenario — targets `"A"`
(resolving to the raw box `[0, 10] × [0, 10]`) and `"B"` (unresolved),
one initial hold frame, 2 zoom and 2 hold frames per target, one closing
hold frame — has exactly `1 + 2·(2+2) + 2 + 1 = 12` frames, and the
first zoom phase opens exactly on the world viewport. -/
theorem animation_sequence_contract_witness :
    (animation_sequence (fun _ => (0 : ℚ))
        (fun n => if n = "A" then some ⟨0, 0, 10, 10⟩ else none)
        1 2 2 1 (4 / 5) ["A", "B"]).length = 1 + 2 * (2 + 2) + 2 + 1
    ∧ (zoomPhaseFrames (fun _ => (0 : ℚ)) 1 WORLD_BOUNDS
        (get_target_bounds
          (fun n => if n = "A" then some ⟨0, 0, 10, 10⟩ else none) "A" 15)
        2).head? = some WORLD_BOUNDS :=
  ⟨animation_sequence_contract.1 (fun _ => (0 : ℚ))
      (fun n => if n = "A" then some ⟨0, 0, 10, 10⟩ else none)
      1 2 2 1 (4 / 5) ["A", "B"],
    animation_sequence_contract.2.1 (fun _ => (0 : ℚ)) 1 WORLD_BOUNDS
      (get_target_bounds
        (fun n => if n = "A" then some ⟨0, 0, 10, 10⟩ else none) "A" 15)
      2 (by norm_num)⟩

end GeoVideo
